import Mathlib

/-!
Verification of the trailsdb-scraper entry-extraction and normalization
pipeline (`scraper.py`).  Python strings are embedded as `List Char`,
HTML documents (BeautifulSoup trees) as a `Node` inductive, and the
extraction / scanning / API-mapping functions are translated from the
source line by line.  The open-ended scanning loop is embedded with an
explicit fuel parameter; termination of the Python loop corresponds to
stabilization of the result once the fuel is large enough.
-/

/-- Python strings are modelled as lists of characters. -/
abbrev Str := List Char

/-- Whitespace as recognized by Python's regex class and by `str.strip`
(ASCII whitespace plus the common Unicode whitespace code points). -/
def isPySpace (c : Char) : Bool :=
  c.val = 32 || c.val = 9 || c.val = 10 || c.val = 13 || c.val = 11 || c.val = 12 ||
  (28 ≤ c.val && c.val ≤ 31) || c.val = 0x85 || c.val = 0xa0 || c.val = 0x1680 ||
  (0x2000 ≤ c.val && c.val ≤ 0x200a) || c.val = 0x2028 || c.val = 0x2029 ||
  c.val = 0x202f || c.val = 0x205f || c.val = 0x3000

/-- `text.replace('\r\n', ' ')`: left-to-right non-overlapping replacement
of the two-character sequence CR LF by one space. -/
def replCRLF : Str → Str
  | '\r' :: '\n' :: cs => ' ' :: replCRLF cs
  | c :: cs => c :: replCRLF cs
  | [] => []

/-- `text.replace('\n', ' ')`. -/
def replLF (s : Str) : Str := s.map (fun c => if c = '\n' then ' ' else c)

/-- `text.replace('\r', ' ')`. -/
def replCR (s : Str) : Str := s.map (fun c => if c = '\r' then ' ' else c)

/-- `re.sub(r'\s+', ' ', text)`: every maximal run of whitespace becomes
a single space. -/
def collapseWs : Str → Str
  | [] => []
  | c :: cs =>
    if isPySpace c then
      match cs with
      | [] => [' ']
      | d :: _ => if isPySpace d then collapseWs cs else ' ' :: collapseWs cs
    else c :: collapseWs cs

/-- Remove trailing characters satisfying `p`. -/
def dropTrail (p : Char → Bool) (s : Str) : Str := (s.reverse.dropWhile p).reverse

/-- Python `str.strip()`: remove leading and trailing whitespace. -/
def pstrip (s : Str) : Str := dropTrail isPySpace (s.dropWhile isPySpace)

/-- `process_text` from scraper.py: empty (falsy) input gives the empty
string; otherwise newlines become spaces, whitespace runs collapse to a
single space, and the result is stripped. -/
def process_text (s : Str) : Str :=
  if s = [] then []
  else pstrip (collapseWs (replCR (replLF (replCRLF s))))

/-! ## HTML document model (BeautifulSoup tree) -/

/- An HTML parse-tree node: either a text node or an element with a tag
name, an optional `id` attribute, a (possibly empty) list of classes and
a list of children.  Children are a dedicated list type so that all tree
recursions are structural (and hence kernel-computable). -/
mutual
inductive Node where
  | text (s : Str)
  | elem (tag : Str) (idAttr : Option Str) (classes : List Str) (children : NodeList)
inductive NodeList where
  | nil
  | cons (n : Node) (l : NodeList)
end

/-- Build a `NodeList` from an ordinary list (for concrete documents). -/
def nlist : List Node → NodeList
  | [] => .nil
  | n :: l => .cons n (nlist l)

/- All nodes at or below the nodes of the given child list, each node
followed by its own subtree (document pre-order), as enumerated by
BeautifulSoup `find_all` / `find`; and the descendants of one node (the
node itself excluded), i.e. the search space of `node.find_all(...)`. -/
mutual
def descendList : NodeList → List Node
  | .nil => []
  | .cons n l => n :: (descendOf n ++ descendList l)
def descendOf : Node → List Node
  | .text _ => []
  | .elem _ _ _ ch => descendList ch
end

/- The strings of all descendant text nodes, in document order
(BeautifulSoup `.strings`). -/
mutual
def texts : NodeList → List Str
  | .nil => []
  | .cons n l => textsOf n ++ texts l
def textsOf : Node → List Str
  | .text s => [s]
  | .elem _ _ _ ch => texts ch
end

/-- `get_text(strip=True)`: each string stripped, all concatenated. -/
def getTextStrip (n : Node) : Str := ((textsOf n).map pstrip).flatten

/-- `get_text(separator=' ', strip=False)`: all strings joined by one
space. -/
def getTextSep (n : Node) : Str := List.intercalate [' '] (textsOf n)

/- `soup.find(id=str(entry_id))` together with the ancestor chain of the
match (nearest ancestor first).  Searches the nodes and their subtrees
in document order; `anc` is the chain of proper ancestors of the nodes
of the current list. -/
mutual
def findIdList (i : Str) (anc : List Node) : NodeList → Option (Node × List Node)
  | .nil => none
  | .cons n l =>
    match findIdNode i anc n with
    | some r => some r
    | none => findIdList i anc l
def findIdNode (i : Str) (anc : List Node) : Node → Option (Node × List Node)
  | .text _ => none
  | .elem t oid k ch =>
    if oid = some i then some (.elem t oid k ch, anc)
    else findIdList i (.elem t oid k ch :: anc) ch
end

/-- Tag name of an element node. -/
def nodeTag : Node → Option Str
  | .text _ => none
  | .elem t _ _ _ => some t

/-- Class list of an element node (empty when absent). -/
def nodeClasses : Node → List Str
  | .text _ => []
  | .elem _ _ cls _ => cls

/-- Whether a node is an element with the given tag. -/
def isTag (n : Node) (t : Str) : Bool := nodeTag n == some t

/-- Whether a node is an element whose tag is one of the given tags. -/
def tagIn (n : Node) (ts : List Str) : Bool :=
  match nodeTag n with
  | some t => ts.contains t
  | none => false

def lowerStr (s : Str) : Str := s.map Char.toLower

/-- Substring test (`pat` occurs somewhere in `s`), as used by regex
`search` and by Python's `in` operator. -/
def isSubstr (pat s : Str) : Bool := s.tails.any (fun t => pat.isPrefixOf t)

def spanStr : Str := "span".toList
def divStr : Str := "div".toList
def strongStr : Str := "strong".toList
def bStr : Str := "b".toList
def pStr : Str := "p".toList
def tdStr : Str := "td".toList
def trStr : Str := "tr".toList
def nameStr : Str := "name".toList
def characterStr : Str := "character".toList
def charStr : Str := "char".toList
def unknownStr : Str := "Unknown".toList

/-- `class_=re.compile(r'name|character', re.I)`: some individual class
contains `name` or `character` case-insensitively. -/
def classNameCharacter (cls : List Str) : Bool :=
  cls.any (fun c => isSubstr nameStr (lowerStr c) || isSubstr characterStr (lowerStr c))

/-- `'name' in str(c).lower() or 'char' in str(c).lower()` over the
class list. -/
def classNameChar (cls : List Str) : Bool :=
  cls.any (fun c => isSubstr nameStr (lowerStr c) || isSubstr charStr (lowerStr c))

/-- Filter of `text_cell.find_all(['span','div','strong','b'], class_=re.compile(r'name|character', re.I))`. -/
def predNameClassTag (n : Node) : Bool :=
  tagIn n [spanStr, divStr, strongStr, bStr] && classNameCharacter (nodeClasses n)

/-- The character-name computation of `extract_entry` (scraper.py lines
150-177), translated branch by branch. -/
def charNameOf (row cell0 text_cell : Node) : Str :=
  let name1 :=
    match (descendOf text_cell).filter predNameClassTag with
    | [] =>
      match (descendOf cell0).find? (fun n => tagIn n [spanStr, divStr, strongStr, bStr]) with
      | some nameInFirst => getTextStrip nameInFirst
      | none =>
        match (descendOf row).find? (fun n => tagIn n [strongStr, bStr]) with
        | some boldText => getTextStrip boldText
        | none => unknownStr
    | e :: _ => getTextStrip e
  if name1 = unknownStr then
    match (descendOf text_cell).find?
        (fun n => tagIn n [divStr, spanStr, pStr] && classNameChar (nodeClasses n)) with
    | some elem2 => getTextStrip elem2
    | none => name1
  else name1

/-- `if character_name != "Unknown" and dialogue_text.startswith(character_name):
dialogue_text = dialogue_text[len(character_name):].strip()` -/
def stripNameStep (nm d : Str) : Str :=
  if nm ≠ unknownStr ∧ nm.isPrefixOf d = true then pstrip (d.drop nm.length) else d

/-- `re.search(r'(\d+)', s)`: the first maximal run of decimal digits. -/
def firstDigits : Str → Option Str
  | [] => none
  | c :: cs => if c.isDigit then some (c :: cs.takeWhile Char.isDigit) else firstDigits cs

/-- `str(n)` for a natural number. -/
def natStr (n : Nat) : Str := Nat.toDigits 10 n

inductive Lang where
  | en
  | jp
deriving DecidableEq

/-- The entry triple produced by the HTML path: (number, text, name),
all strings. -/
abbrev EntryH := Str × Str × Str

/-- `soup.find(id=str(entry_id))` over a document given as a list of
root nodes. -/
def locate (doc : NodeList) (entry_id : Nat) : Option (Node × List Node) :=
  findIdList (natStr entry_id) [] doc

/-- `entry_element.find_parent('tr')`: the nearest ancestor that is a
table row. -/
def rowOf (anc : List Node) : Option Node := anc.find? (fun n => isTag n trStr)

/-- `row.find_all('td')`. -/
def tdCells (row : Node) : List Node := (descendOf row).filter (fun n => isTag n tdStr)

/-- Cell access; the scraper only indexes after checking `len(cells) >= 4`. -/
def cellAt (cells : List Node) (i : Nat) : Node := cells.getD i (.text [])

/-- `cells[2 if language == 'en' else 3]`. -/
def textCellOf (cells : List Node) (language : Lang) : Node :=
  cellAt cells (if language = .en then 2 else 3)

/-- `extract_entry(soup, entry_id, language)` from scraper.py: locate the
element with the given id, walk up to its table row, read the number
from cell 0, pick the text cell by language, run the character-name
heuristics, strip a leading name echo, normalize, and fail on empty. -/
def extract_entry (doc : NodeList) (entry_id : Nat) (language : Lang) : Option EntryH :=
  match locate doc entry_id with
  | none => none
  | some (_, anc) =>
    match rowOf anc with
    | none => none
    | some row =>
      let cells := tdCells row
      if cells.length < 4 then none
      else
        match firstDigits (getTextStrip (cellAt cells 0)) with
        | none => none
        | some number =>
          let text_cell := textCellOf cells language
          let character_name := charNameOf row (cellAt cells 0) text_cell
          let dialogue_text := getTextSep text_cell
          let processed := process_text (stripNameStep character_name dialogue_text)
          if processed = [] then none
          else some (number, processed, character_name)

/-! ## Range scanning (scrape_entries) -/

/-- The `finish_id` argument: an integer bound or the literal `'end'`. -/
inductive Finish where
  | num (n : Int)
  | toEnd
deriving DecidableEq

/-- The bounded branch of `scrape_entries`: `for entry_id in
range(start_id, finish_id + 1)`, appending every successful extraction. -/
def scrape_bounded (doc : NodeList) (start_id finish_id : Nat) (language : Lang) :
    List EntryH :=
  (List.range' start_id (finish_id + 1 - start_id)).filterMap
    (fun i => extract_entry doc i language)

/-- The open-ended branch of `scrape_entries` (finish id `'end'`),
embedded with explicit fuel: state is (current id, consecutive-miss
counter); the loop runs while the counter is below 10, resetting it on
every hit and incrementing it on every miss.  Returns the accumulated
entries together with the final id and counter.  Exhausted fuel returns
the state reached so far; a run that actually terminated is detected by
a final counter value of 10. -/
def scrapeOpenFuel : Nat → NodeList → Lang → Nat → Nat → List EntryH × Nat × Nat
  | 0, _, _, entry_id, misses => ([], entry_id, misses)
  | fuel + 1, doc, language, entry_id, misses =>
    if misses < 10 then
      match extract_entry doc entry_id language with
      | some e =>
        let r := scrapeOpenFuel fuel doc language (entry_id + 1) 0
        (e :: r.1, r.2)
      | none => scrapeOpenFuel fuel doc language (entry_id + 1) (misses + 1)
    else ([], entry_id, misses)

/-! ## API path (fetch_entries_via_api) -/

/-- The value found under the `row` key of an API record: either an
integer-convertible value (modelled by its value) or one on which
`int(...)` raises. -/
inductive RowV where
  | i (n : Int)
  | bad
deriving DecidableEq

/-- `int(row_value)` as a partial function. -/
def rowInt : RowV → Option Int
  | .i n => some n
  | .bad => none

/-- The fields of an API script record that the mapper reads.  A `none`
field is absent from the record. -/
structure Script where
  row : Option RowV
  jpnHtmlText : Option Str := none
  jpnSearchText : Option Str := none
  jpnChrName : Option Str := none
  engHtmlText : Option Str := none
  engSearchText : Option Str := none
  engChrName : Option Str := none

/-- Python `a or b` where `a` is an optional string: `b` when `a` is
absent or empty (falsy), `a`'s value otherwise. -/
def pyOr (a : Option Str) (b : Str) : Str :=
  match a with
  | none => b
  | some s => if s = [] then b else s

/-- After `br`, recognize `\\s*/?>` and return the remaining input. -/
def brClose : Str → Option Str
  | '>' :: t => some t
  | '/' :: '>' :: t => some t
  | _ => none

/-- After a literal `<`, recognize the rest of `br\\s*/?>` (case
insensitive on the letters) and return the remaining input. -/
def brTail : Str → Option Str
  | b :: r :: rest =>
    if (b = 'b' || b = 'B') && (r = 'r' || r = 'R') then
      brClose (rest.dropWhile isPySpace)
    else none
  | _ => none

/-- `re.sub(r"<br\\s*/?>", " ", raw_text, flags=re.IGNORECASE)`:
left-to-right scan replacing each non-overlapping match by one space.
The scan consumes at least one character per step, so running it with
the input length as fuel is exact (the fuel case is never reached on a
nonempty remainder). -/
def brReplaceAux : Nat → Str → Str
  | 0, s => s
  | _ + 1, [] => []
  | fuel + 1, c :: cs =>
    if c = '<' then
      match brTail cs with
      | some t => ' ' :: brReplaceAux fuel t
      | none => c :: brReplaceAux fuel cs
    else c :: brReplaceAux fuel cs

def brReplace (s : Str) : Str := brReplaceAux s.length s

/-- The body of the `for script in scripts` loop of
`fetch_entries_via_api`, as a partial map from one record to one entry. -/
def mapScript (start_id : Int) (finish_id : Finish) (language : Lang) (script : Script) :
    Option (Int × Str × Str) :=
  match script.row with
  | none => none
  | some rv =>
    match rowInt rv with
    | none => none
    | some row_num =>
      if row_num < start_id then none
      else if (match finish_id with | .num f => decide (f < row_num) | .toEnd => false) then
        none
      else
        let raw_text :=
          match language with
          | .jp => pyOr script.jpnHtmlText (pyOr script.jpnSearchText [])
          | .en => pyOr script.engHtmlText (pyOr script.engSearchText [])
        let character_name :=
          match language with
          | .jp => pyOr script.jpnChrName unknownStr
          | .en => pyOr script.engChrName unknownStr
        let raw2 := if raw_text = [] then raw_text else brReplace raw_text
        let processed := process_text raw2
        if processed = [] then none
        else some (row_num, processed, character_name)

/-- The record-processing loop of `fetch_entries_via_api` (scraper.py
lines 437-467), given the already-fetched record list: each record is
row-filtered and mapped, skipped records are dropped, order is the
source order. -/
def fetch_entries_via_api (scripts : List Script) (start_id : Int) (finish_id : Finish)
    (language : Lang) : List (Int × Str × Str) :=
  scripts.filterMap (mapScript start_id finish_id language)

/-! ## Spec-side definitions (used to state refinement claims) -/

/-- Numeric value of a digit string (to read the `number` field of an
entry as an integer for ordering claims). -/
def numVal (s : Str) : Nat := s.foldl (fun a c => a * 10 + (c.toNat - '0'.toNat)) 0

/-- First element of an ordered list of optional results
(spec 4.2 step 6: "ordered fallback chain, stopping at first success"). -/
def firstSome : List (Option Str) → Option Str
  | [] => none
  | none :: rest => firstSome rest
  | some s :: _ => some s

/-- Heuristic (a): first span/div/strong/b inside the text cell whose
class matches `name` or `character` case-insensitively. -/
def attemptA (text_cell : Node) : Option Str :=
  ((descendOf text_cell).find? predNameClassTag).map getTextStrip

/-- Heuristic (b): first span/div/strong/b inside cell 0. -/
def attemptB (cell0 : Node) : Option Str :=
  ((descendOf cell0).find?
    (fun n => tagIn n [spanStr, divStr, strongStr, bStr])).map getTextStrip

/-- Heuristic (c): first strong/b anywhere in the row. -/
def attemptC (row : Node) : Option Str :=
  ((descendOf row).find? (fun n => tagIn n [strongStr, bStr])).map getTextStrip

/-- Heuristic (d) as the claim words it: any element inside the text
cell whose class contains `name` or `char` as a case-insensitive
substring. -/
def attemptDAny (text_cell : Node) : Option Str :=
  ((descendOf text_cell).find?
    (fun n => (nodeTag n).isSome && classNameChar (nodeClasses n))).map getTextStrip

/-- Heuristic (d) as the code implements it: only div/span/p elements
are scanned. -/
def attemptD (text_cell : Node) : Option Str :=
  ((descendOf text_cell).find?
    (fun n => tagIn n [divStr, spanStr, pStr] && classNameChar (nodeClasses n))).map getTextStrip

/-- The character-name chain exactly as claim C4 words it: try (a), (b),
(c), (d-any-element) in order, stopping at the first success, with
sentinel `"Unknown"` when all fail. -/
def claimNameChain (row cell0 text_cell : Node) : Str :=
  (firstSome [attemptA text_cell, attemptB cell0, attemptC row, attemptDAny text_cell]).getD
    unknownStr

/-- The corrected chain: (d) only examines div/span/p elements, and it
runs whenever the name after (a)-(c) is literally `"Unknown"` (also when
an earlier heuristic produced the text `"Unknown"`). -/
def amendedNameChain (row cell0 text_cell : Node) : Str :=
  let base := (firstSome [attemptA text_cell, attemptB cell0, attemptC row]).getD unknownStr
  if base = unknownStr then (attemptD text_cell).getD unknownStr else base

/-- Claim C3's condition 1: no element with the id. -/
def condNoElem (doc : NodeList) (i : Nat) : Bool := (locate doc i).isNone

/-- Claim C3's condition 2: the found element has no tr ancestor. -/
def condNoRowAnc (doc : NodeList) (i : Nat) : Bool :=
  match locate doc i with
  | some (_, anc) => (rowOf anc).isNone
  | none => false

/-- Claim C3's condition 3: fewer than 4 cells in the row. -/
def condFewCells (doc : NodeList) (i : Nat) : Bool :=
  match locate doc i with
  | some (_, anc) =>
    match rowOf anc with
    | some row => decide ((tdCells row).length < 4)
    | none => false
  | none => false

/-- Claim C3's condition 4: no digit run in the first cell's text. -/
def condNoDigits (doc : NodeList) (i : Nat) : Bool :=
  match locate doc i with
  | some (_, anc) =>
    match rowOf anc with
    | some row => (firstDigits (getTextStrip (cellAt (tdCells row) 0))).isNone
    | none => false
  | none => false

/-- Claim C3's condition 5 as worded: the text cell's content normalizes
to the empty string (no account of character-name stripping). -/
def condEmptyTextOrig (doc : NodeList) (i : Nat) (lang : Lang) : Bool :=
  match locate doc i with
  | some (_, anc) =>
    match rowOf anc with
    | some row => decide (process_text (getTextSep (textCellOf (tdCells row) lang)) = [])
    | none => false
  | none => false

/-- Corrected condition 5: the text-cell content, after the
character-name stripping step, normalizes to the empty string. -/
def condEmptyTextAmended (doc : NodeList) (i : Nat) (lang : Lang) : Bool :=
  match locate doc i with
  | some (_, anc) =>
    match rowOf anc with
    | some row =>
      decide (process_text
        (stripNameStep
          (charNameOf row (cellAt (tdCells row) 0) (textCellOf (tdCells row) lang))
          (getTextSep (textCellOf (tdCells row) lang))) = [])
    | none => false
  | none => false

/-- The five-way disjunction of claim C3 as worded. -/
def missSpecOrig (doc : NodeList) (i : Nat) (lang : Lang) : Bool :=
  condNoElem doc i || condNoRowAnc doc i || condFewCells doc i ||
  condNoDigits doc i || condEmptyTextOrig doc i lang

/-- The corrected five-way disjunction. -/
def missSpecAmended (doc : NodeList) (i : Nat) (lang : Lang) : Bool :=
  condNoElem doc i || condNoRowAnc doc i || condFewCells doc i ||
  condNoDigits doc i || condEmptyTextAmended doc i lang

/-- First non-empty string of an ordered preference list (spec 4.3
step 3: "prefer ..., fall back to ..., else empty"). -/
def specPick : List (Option Str) → Str
  | [] => []
  | none :: rest => specPick rest
  | some t :: rest => if t = [] then specPick rest else t

/-- Spec 4.3 step 3, text selection by language. -/
def specApiText (r : Script) (language : Lang) : Str :=
  match language with
  | .jp => specPick [r.jpnHtmlText, r.jpnSearchText]
  | .en => specPick [r.engHtmlText, r.engSearchText]

/-- Spec 4.3 step 3, name selection by language with the `"Unknown"`
default. -/
def specApiName (r : Script) (language : Lang) : Str :=
  let nm := match language with
    | .jp => specPick [r.jpnChrName]
    | .en => specPick [r.engChrName]
  if nm = [] then unknownStr else nm

/-- The API entry mapper as the spec (4.3) words it: read and convert
`row`, range-check it, select text and name by language, replace br
markup, normalize, skip empties. -/
def specApiMap (start_id : Int) (finish_id : Finish) (language : Lang) (r : Script) :
    Option (Int × Str × Str) :=
  match r.row with
  | none => none
  | some rv =>
    match rowInt rv with
    | none => none
    | some n =>
      if n < start_id then none
      else if (match finish_id with | .num e => decide (e < n) | .toEnd => false) then none
      else
        let t := process_text (brReplace (specApiText r language))
        if t = [] then none else some (n, t, specApiName r language)

/-! ## Concrete documents and records -/

/-- A well-formed table row whose id attribute sits on the first cell:
(id attribute, first-cell text, English text, Japanese text). -/
def mkRow4 (idv numv env jpv : Str) : Node :=
  .elem trStr none [] (nlist
    [ .elem tdStr (some idv) [] (nlist [.text numv]),
      .elem tdStr none [] .nil,
      .elem tdStr none [] (nlist [.text env]),
      .elem tdStr none [] (nlist [.text jpv]) ])

/-- Synthetic document for the open-ended scan test: rows with ids 5..14
only. -/
def cdocOpen : NodeList :=
  nlist [ .elem "table".toList none []
    (nlist ((List.range' 5 10).map (fun i => mkRow4 (natStr i) (natStr i) "hi".toList "yo".toList))) ]

/-- Expected result of the open-ended scan over `cdocOpen`. -/
def openExpected : List EntryH :=
  (List.range' 5 10).map (fun i => (natStr i, "hi".toList, unknownStr))

/-- Document where displayed numbers disagree with visited ids: id "1"
shows number 50, id "2" shows number 3. -/
def cdocNonMono : NodeList :=
  nlist [ .elem "table".toList none []
    (nlist [ mkRow4 "1".toList "50".toList "x".toList "xj".toList,
             mkRow4 "2".toList "3".toList "y".toList "yj".toList ]) ]

/-- API records listed out of row order. -/
def scriptsNonMono : List Script :=
  [ { row := some (.i 5), engHtmlText := some "a".toList },
    { row := some (.i 3), engHtmlText := some "b".toList } ]

/-- API records in ascending row order (used as a witness). -/
def scriptsMono : List Script :=
  [ { row := some (.i 3), engHtmlText := some "b".toList },
    { row := some (.i 5), engHtmlText := some "a".toList } ]

/-- Document where the whole text cell is exactly the found character
name: extraction misses although the text cell's content normalizes to a
nonempty string. -/
def cdocNameOnly : NodeList :=
  nlist [ .elem "table".toList none [] (nlist
    [ .elem trStr none [] (nlist
      [ .elem tdStr (some "7".toList) []
          (nlist [.text "7".toList, .elem spanStr none [] (nlist [.text "Bob".toList])]),
        .elem tdStr none [] .nil,
        .elem tdStr none [] (nlist [.text "Bob".toList]),
        .elem tdStr none [] .nil ]) ]) ]

/-- Text cell containing an `a` element classed "xchar": claim C4's
heuristic (d) as worded would pick it, the code does not. -/
def tcellAnchor : Node :=
  .elem tdStr none [] (nlist
    [ .elem "a".toList none ["xchar".toList] (nlist [.text "Zed".toList]),
      .text " hi".toList ])

def cell0Plain : Node := .elem tdStr none [] (nlist [.text "1".toList])

def rowAnchor : Node :=
  .elem trStr none [] (nlist
    [ cell0Plain, .elem tdStr none [] .nil, tcellAnchor, .elem tdStr none [] .nil ])

/-- Cell 0 containing a span whose text is literally "Unknown": the
claimed chain stops at (b), the code falls through to (d). -/
def cell0Unknown : Node :=
  .elem tdStr none [] (nlist [ .elem spanStr none [] (nlist [.text "Unknown".toList]) ])

def tcellCharbox : Node :=
  .elem tdStr none [] (nlist
    [ .elem divStr none ["charbox".toList] (nlist [.text "Kara".toList]),
      .text " hi".toList ])

def rowCharbox : Node :=
  .elem trStr none [] (nlist
    [ cell0Unknown, .elem tdStr none [] .nil, tcellCharbox, .elem tdStr none [] .nil ])

/-- Document for the name-stripping example: text cell is a "name"
classed span "Bob" followed by " says hi". -/
def cdocBob : NodeList :=
  nlist [ .elem "table".toList none [] (nlist
    [ .elem trStr none [] (nlist
      [ .elem tdStr (some "1".toList) [] (nlist [.text "1".toList]),
        .elem tdStr none [] .nil,
        .elem tdStr none [] (nlist
          [ .elem spanStr none ["name".toList] (nlist [.text "Bob".toList]),
            .text " says hi".toList ]),
        .elem tdStr none [] .nil ]) ]) ]

/-- Document where fallback (b) finds an empty span in cell 0, making
the character name the empty string, while the text cell holds a
p-element the (d) heuristic would have matched. -/
def cdocEmptyName : NodeList :=
  nlist [ .elem "table".toList none [] (nlist
    [ .elem trStr none [] (nlist
      [ .elem tdStr (some "1".toList) []
          (nlist [.text "1".toList, .elem spanStr none [] .nil]),
        .elem tdStr none [] .nil,
        .elem tdStr none [] (nlist
          [ .elem pStr none ["name".toList] (nlist [.text "Kara".toList]),
            .text "hi".toList ]),
        .elem tdStr none [] .nil ]) ]) ]

/-- The record of claim C6. -/
def scriptC6 : Script :=
  { row := some (.i 3),
    engHtmlText := some "Hi<br>there".toList,
    engChrName := some "Kara".toList,
    jpnHtmlText := some "konnichiwa".toList,
    jpnChrName := some "Kara-j".toList }

/-- Adjacent characters in collapsed output are never both whitespace. -/
def RnoWs (a b : Char) : Prop := ¬(isPySpace a = true ∧ isPySpace b = true)

/-- Decreasing measure for the open-ended scan under the assumption that
every id at or above `N` misses. -/
def muOpen (N id m : Nat) : Nat := if id < N then N - id + 10 else 10 - m

/-- The integer row a record contributes, when present and convertible. -/
def rowOfScript (sc : Script) : Option Int := sc.row.bind rowInt

/-- Records in weakly ascending row order (only comparable when both
rows convert). -/
def rowsLEb (a b : Script) : Bool :=
  match rowOfScript a, rowOfScript b with
  | some x, some y => decide (x ≤ y)
  | _, _ => true

/-! ## Lemmas about the text normalizer -/

theorem collapseWs_mem : ∀ {l : Str} {c : Char}, c ∈ collapseWs l →
    c = ' ' ∨ (c ∈ l ∧ isPySpace c = false) := by
  intro l
  induction l with
  | nil => intro c h; simp [collapseWs] at h
  | cons a cs ih =>
    intro c h
    by_cases ha : isPySpace a
    · cases cs with
      | nil =>
        simp [collapseWs, ha] at h
        left; exact h
      | cons d ds =>
        by_cases hd : isPySpace d
        · rw [collapseWs.eq_def] at h
          simp only [if_pos ha, if_pos hd] at h
          rcases ih h with h1 | ⟨h2, h3⟩
          · left; exact h1
          · right; exact ⟨List.mem_cons_of_mem _ h2, h3⟩
        · rw [collapseWs.eq_def] at h
          simp only [if_pos ha, if_neg hd] at h
          rcases List.mem_cons.mp h with h1 | h1
          · left; exact h1
          · rcases ih h1 with h2 | ⟨h2, h3⟩
            · left; exact h2
            · right; exact ⟨List.mem_cons_of_mem _ h2, h3⟩
    · rw [collapseWs.eq_def] at h
      simp only [if_neg ha] at h
      rcases List.mem_cons.mp h with h1 | h1
      · subst h1
        by_cases hc : isPySpace c
        · exact absurd hc ha
        · right
          exact ⟨List.mem_cons_self _ _, by simpa using hc⟩
      · rcases ih h1 with h2 | ⟨h2, h3⟩
        · left; exact h2
        · right; exact ⟨List.mem_cons_of_mem _ h2, h3⟩

theorem collapseWs_head_of_notWs {d : Char} {ds : Str} (hd : isPySpace d = false) :
    collapseWs (d :: ds) = d :: collapseWs ds := by
  rw [collapseWs.eq_def]
  simp [hd]

theorem collapseWs_chain : ∀ l : Str, List.Chain' RnoWs (collapseWs l) := by
  intro l
  induction l with
  | nil => simp [collapseWs]
  | cons a cs ih =>
    by_cases ha : isPySpace a
    · cases cs with
      | nil => simp [collapseWs, ha, List.chain'_singleton]
      | cons d ds =>
        by_cases hd : isPySpace d
        · rw [collapseWs.eq_def]
          simp only [if_pos ha, if_pos hd]
          exact ih
        · rw [collapseWs.eq_def]
          simp only [if_pos ha, if_neg hd]
          rw [List.chain'_cons']
          constructor
          · intro y hy
            rw [collapseWs_head_of_notWs (by simpa using hd)] at hy
            simp at hy
            subst hy
            intro hc
            simp [hd] at hc
          · exact ih
    · rw [collapseWs.eq_def]
      simp only [if_neg ha]
      rw [List.chain'_cons']
      refine ⟨?_, ih⟩
      intro y _
      intro hc
      exact absurd hc.1 (by simpa using ha)

theorem collapseWs_fix : ∀ l : Str, (∀ c ∈ l, isPySpace c = true → c = ' ') →
    List.Chain' RnoWs l → collapseWs l = l := by
  intro l
  induction l with
  | nil => intro _ _; rfl
  | cons a cs ih =>
    intro hws hch
    by_cases ha : isPySpace a
    · have ha' : a = ' ' := hws a (List.mem_cons_self _ _) ha
      cases cs with
      | nil => simp [collapseWs, ha, ha']
      | cons d ds =>
        have hd : isPySpace d = false := by
          rcases List.chain'_cons'.mp hch with ⟨hhead, _⟩
          have := hhead d (by simp)
          by_contra hcon
          simp at hcon
          exact this ⟨ha, hcon⟩
        rw [collapseWs.eq_def]
        simp only [if_pos ha, hd]
        rw [if_neg (by simp : ¬ (false = true)), ha']
        congr 1
        exact ih (fun c hc h => hws c (List.mem_cons_of_mem _ hc) h)
          (List.Chain'.tail hch)
    · rw [collapseWs_head_of_notWs (by simpa using ha)]
      congr 1
      exact ih (fun c hc h => hws c (List.mem_cons_of_mem _ hc) h)
        (List.Chain'.tail hch)

theorem mem_replCRLF : ∀ (l : Str) (c : Char), c ∈ replCRLF l → c = ' ' ∨ c ∈ l := by
  intro l
  induction l using replCRLF.induct with
  | case1 cs ih =>
    intro c h
    rw [replCRLF.eq_1] at h
    rcases List.mem_cons.mp h with h1 | h1
    · left; exact h1
    · rcases ih c h1 with h2 | h2
      · left; exact h2
      · right; simp [h2]
  | case2 a cs hne ih =>
    intro c h
    rw [replCRLF.eq_2 a cs hne] at h
    rcases List.mem_cons.mp h with h1 | h1
    · right; simp [h1]
    · rcases ih c h1 with h2 | h2
      · left; exact h2
      · right; simp [h2]
  | case3 =>
    intro c h
    simp [replCRLF] at h

theorem replCRLF_eq_self : ∀ (l : Str), '\r' ∉ l → replCRLF l = l := by
  intro l
  induction l using replCRLF.induct with
  | case1 cs ih => intro h; simp at h
  | case2 a cs hne ih =>
    intro h
    rw [replCRLF.eq_2 a cs hne]
    have : '\r' ∉ cs := fun hc => h (List.mem_cons_of_mem _ hc)
    rw [ih this]
  | case3 => intro _; rfl

theorem map_eq_self {f : Char → Char} : ∀ {l : Str}, (∀ c ∈ l, f c = c) → l.map f = l := by
  intro l
  induction l with
  | nil => intro _; rfl
  | cons a cs ih =>
    intro h
    simp only [List.map_cons]
    rw [h a (List.mem_cons_self _ _), ih (fun c hc => h c (List.mem_cons_of_mem _ hc))]

theorem mem_map_char {f : Char → Char} {l : Str} {c : Char} (h : c ∈ l.map f) :
    ∃ a ∈ l, f a = c := List.mem_map.mp h

theorem replLF_no_lf (l : Str) : '\n' ∉ replLF l := by
  intro h
  rcases mem_map_char h with ⟨a, _, ha⟩
  by_cases h2 : a = '\n' <;> simp [h2] at ha

theorem replCR_no_cr (l : Str) : '\r' ∉ replCR l := by
  intro h
  rcases mem_map_char h with ⟨a, _, ha⟩
  by_cases h2 : a = '\r' <;> simp [h2] at ha

theorem replCR_pres_no_lf {l : Str} (h : '\n' ∉ l) : '\n' ∉ replCR l := by
  intro hmem
  rcases mem_map_char hmem with ⟨a, hal, ha⟩
  by_cases h2 : a = '\r' <;> simp [h2] at ha
  exact h (ha ▸ hal)

theorem chain_dropWhile {R : Char → Char → Prop} {p : Char → Bool} :
    ∀ {l : Str}, List.Chain' R l → List.Chain' R (l.dropWhile p) := by
  intro l
  induction l with
  | nil => intro h; exact h
  | cons a cs ih =>
    intro h
    rw [List.dropWhile_cons]
    by_cases hp : p a
    · simp only [hp, if_pos rfl]
      exact ih (List.Chain'.tail h)
    · simp only [hp]
      simpa using h

theorem chain_dropTrail {R : Char → Char → Prop} {p : Char → Bool} {l : Str}
    (h : List.Chain' R l) : List.Chain' R (dropTrail p l) := by
  unfold dropTrail
  rw [List.chain'_reverse]
  apply chain_dropWhile
  have : List.Chain' (flip R) l.reverse ↔ List.Chain' (flip (flip R)) l := List.chain'_reverse
  rw [List.chain'_reverse]
  simpa [Function.flip_def] using h

theorem chain_pstrip {R : Char → Char → Prop} {l : Str} (h : List.Chain' R l) :
    List.Chain' R (pstrip l) :=
  chain_dropTrail (chain_dropWhile h)

theorem mem_dropTrail {p : Char → Bool} {l : Str} {c : Char} (h : c ∈ dropTrail p l) :
    c ∈ l := by
  unfold dropTrail at h
  rw [List.mem_reverse] at h
  have := (List.dropWhile_sublist p).subset h
  rwa [List.mem_reverse] at this

theorem mem_pstrip {l : Str} {c : Char} (h : c ∈ pstrip l) : c ∈ l :=
  (List.dropWhile_sublist _).subset (mem_dropTrail h)

theorem head_dropWhile_false {p : Char → Bool} :
    ∀ {l : Str} {c : Char}, (l.dropWhile p).head? = some c → p c = false := by
  intro l
  induction l with
  | nil => intro c h; simp [List.dropWhile] at h
  | cons a cs ih =>
    intro c h
    rw [List.dropWhile_cons] at h
    by_cases hp : p a
    · simp only [hp, if_pos rfl] at h
      exact ih h
    · simp only [hp] at h
      simp at h
      subst h
      simpa using hp

theorem headOfAppend {a b : Str} {c : Char} (h : a.head? = some c) :
    (a ++ b).head? = some c := by
  cases a with
  | nil => simp at h
  | cons x xs => simpa using h

theorem dropTrail_append (p : Char → Bool) (l : Str) :
    dropTrail p l ++ (l.reverse.takeWhile p).reverse = l := by
  unfold dropTrail
  rw [← List.reverse_append, List.takeWhile_append_dropWhile, List.reverse_reverse]

theorem pstrip_head {l : Str} {c : Char} (h : (pstrip l).head? = some c) :
    isPySpace c = false := by
  have hap : (pstrip l ++ ((l.dropWhile isPySpace).reverse.takeWhile isPySpace).reverse).head?
      = some c := headOfAppend h
  rw [pstrip, dropTrail_append] at hap
  exact head_dropWhile_false hap

theorem pstrip_last {l : Str} {c : Char} (h : (pstrip l).getLast? = some c) :
    isPySpace c = false := by
  rw [pstrip, dropTrail, List.getLast?_reverse] at h
  exact head_dropWhile_false h

theorem dropWhile_eq_self_of_head {p : Char → Bool} {l : Str}
    (h : ∀ c, l.head? = some c → p c = false) : l.dropWhile p = l := by
  cases l with
  | nil => rfl
  | cons a cs =>
    rw [List.dropWhile_cons]
    have := h a (by simp)
    simp [this]

theorem dropTrail_eq_self_of_last {p : Char → Bool} {l : Str}
    (h : ∀ c, l.getLast? = some c → p c = false) : dropTrail p l = l := by
  unfold dropTrail
  rw [dropWhile_eq_self_of_head, List.reverse_reverse]
  intro c hc
  rw [List.head?_reverse] at hc
  exact h c hc

theorem pstrip_fix {l : Str}
    (h1 : ∀ c, l.head? = some c → isPySpace c = false)
    (h2 : ∀ c, l.getLast? = some c → isPySpace c = false) : pstrip l = l := by
  unfold pstrip
  rw [dropWhile_eq_self_of_head h1, dropTrail_eq_self_of_last h2]

theorem pstrip_pstrip (l : Str) : pstrip (pstrip l) = pstrip l :=
  pstrip_fix (fun _ h => pstrip_head h) (fun _ h => pstrip_last h)

theorem process_text_ws_eq_space {s : Str} {c : Char} (hc : c ∈ process_text s)
    (hws : isPySpace c = true) : c = ' ' := by
  unfold process_text at hc
  by_cases hs : s = []
  · simp [hs] at hc
  · simp only [hs, if_neg] at hc
    have h2 := mem_pstrip hc
    rcases collapseWs_mem h2 with h3 | ⟨_, h4⟩
    · exact h3
    · rw [hws] at h4; cases h4

theorem process_text_no_cr (s : Str) : '\r' ∉ process_text s := by
  intro h
  have := process_text_ws_eq_space h (by decide)
  cases this

theorem process_text_no_lf (s : Str) : '\n' ∉ process_text s := by
  intro h
  have := process_text_ws_eq_space h (by decide)
  cases this

theorem process_text_chain (s : Str) : List.Chain' RnoWs (process_text s) := by
  unfold process_text
  by_cases hs : s = []
  · simp [hs]
  · simp only [hs, if_neg]
    exact chain_pstrip (collapseWs_chain _)

theorem process_text_trimmed (s : Str) : pstrip (process_text s) = process_text s := by
  unfold process_text
  by_cases hs : s = []
  · simp [hs]; rfl
  · simp only [hs, if_neg]
    exact pstrip_pstrip _

theorem process_text_idem (s : Str) : process_text (process_text s) = process_text s := by
  by_cases ht : process_text s = []
  · rw [ht]; rfl
  · have hcr : replCRLF (process_text s) = process_text s :=
      replCRLF_eq_self _ (process_text_no_cr s)
    have hlf : replLF (process_text s) = process_text s :=
      map_eq_self (fun c hc => by
        have : c ≠ '\n' := fun h => process_text_no_lf s (h ▸ hc)
        simp [this])
    have hcr2 : replCR (process_text s) = process_text s :=
      map_eq_self (fun c hc => by
        have : c ≠ '\r' := fun h => process_text_no_cr s (h ▸ hc)
        simp [this])
    have hco : collapseWs (process_text s) = process_text s :=
      collapseWs_fix _ (fun c hc hws => process_text_ws_eq_space hc hws)
        (process_text_chain s)
    conv =>
      left
      rw [process_text]
    rw [if_neg ht, hcr, hlf, hcr2, hco, process_text_trimmed]

/-! ## Lemmas about the open-ended scan -/

theorem scrapeOpen_stab : ∀ (f : Nat) (doc : NodeList) (lang : Lang) (id m : Nat)
    (es : List EntryH) (i : Nat), scrapeOpenFuel f doc lang id m = (es, i, 10) →
    ∀ g, scrapeOpenFuel (f + g) doc lang id m = (es, i, 10) := by
  intro f
  induction f with
  | zero =>
    intro doc lang id m es i h g
    simp only [scrapeOpenFuel, Prod.mk.injEq] at h
    obtain ⟨he, hi, hm⟩ := h
    subst he; subst hi; subst hm
    cases g with
    | zero => rfl
    | succ g' =>
      rw [Nat.zero_add]
      simp [scrapeOpenFuel]
  | succ f' ih =>
    intro doc lang id m es i h g
    have e1 : f' + 1 + g = (f' + g) + 1 := by omega
    rw [e1]
    by_cases hm : m < 10
    · cases hx : extract_entry doc id lang with
      | some e =>
        rw [scrapeOpenFuel] at h ⊢
        simp only [hm, if_pos, hx] at h ⊢
        rcases hr : scrapeOpenFuel f' doc lang (id + 1) 0 with ⟨es1, i1, m1⟩
        rw [hr] at h
        simp only [Prod.mk.injEq] at h
        obtain ⟨he, hi, hm1⟩ := h
        subst hm1
        rw [ih doc lang (id + 1) 0 es1 i1 hr g]
        simp [he, hi]
      | none =>
        rw [scrapeOpenFuel] at h ⊢
        simp only [hm, if_pos, hx] at h ⊢
        exact ih doc lang (id + 1) (m + 1) es i h g
    · rw [scrapeOpenFuel] at h ⊢
      simp only [if_neg hm] at h ⊢
      exact h

theorem scrapeOpen_mu {doc : NodeList} {lang : Lang} {N : Nat}
    (h : ∀ i, N ≤ i → extract_entry doc i lang = none) :
    ∀ (f id m : Nat), muOpen N id m ≤ f →
    ∀ g, scrapeOpenFuel (f + g) doc lang id m = scrapeOpenFuel f doc lang id m := by
  intro f
  induction f with
  | zero =>
    intro id m hmu g
    have hidN : ¬ id < N := by
      intro hc
      simp only [muOpen, if_pos hc] at hmu
      omega
    have hm : 10 ≤ m := by
      simp only [muOpen, if_neg hidN] at hmu
      omega
    cases g with
    | zero => rfl
    | succ g' =>
      rw [Nat.zero_add]
      simp [scrapeOpenFuel, Nat.not_lt.mpr hm]
  | succ f' ih =>
    intro id m hmu g
    have e1 : f' + 1 + g = (f' + g) + 1 := by omega
    rw [e1]
    by_cases hm : m < 10
    · cases hx : extract_entry doc id lang with
      | some e =>
        have hidN : id < N := by
          by_contra hc
          rw [h id (Nat.le_of_not_lt hc)] at hx
          cases hx
        have hmu2 : muOpen N (id + 1) 0 ≤ f' := by
          simp only [muOpen, if_pos hidN] at hmu
          simp only [muOpen]
          split <;> omega
        rw [scrapeOpenFuel, scrapeOpenFuel]
        simp only [hm, if_pos, hx]
        rw [ih (id + 1) 0 hmu2 g]
      | none =>
        have hmu2 : muOpen N (id + 1) (m + 1) ≤ f' := by
          simp only [muOpen] at hmu ⊢
          split at hmu <;> split <;> omega
        rw [scrapeOpenFuel, scrapeOpenFuel]
        simp only [hm, if_pos, hx]
        exact ih (id + 1) (m + 1) hmu2 g
    · rw [scrapeOpenFuel, scrapeOpenFuel]
      simp only [if_neg hm]

/-- The entries accumulated by the open-ended scan are exactly the
successful extractions over a contiguous ascending id range. -/
theorem scrapeOpen_entries_range : ∀ (f : Nat) (doc : NodeList) (lang : Lang) (id m : Nat),
    ∃ k, (scrapeOpenFuel f doc lang id m).1 =
      (List.range' id k).filterMap (fun i => extract_entry doc i lang) := by
  intro f
  induction f with
  | zero => intro doc lang id m; exact ⟨0, rfl⟩
  | succ f' ih =>
    intro doc lang id m
    by_cases hm : m < 10
    · cases hx : extract_entry doc id lang with
      | some e =>
        obtain ⟨k, hk⟩ := ih doc lang (id + 1) 0
        refine ⟨k + 1, ?_⟩
        rw [scrapeOpenFuel]
        simp only [hm, if_pos, hx, List.range'_succ, List.filterMap_cons]
        rw [hk]
      | none =>
        obtain ⟨k, hk⟩ := ih doc lang (id + 1) (m + 1)
        refine ⟨k + 1, ?_⟩
        rw [scrapeOpenFuel]
        simp only [hm, if_pos, hx, List.range'_succ, List.filterMap_cons]
        exact hk
    · exact ⟨0, by rw [scrapeOpenFuel]; simp [hm]⟩

/-! ## Ordering lemmas (claim C1) -/

theorem mapScript_shape (start : Int) (fin : Finish) (lang : Lang) (sc : Script) :
    mapScript start fin lang sc = none ∨
    (∃ n t nm, rowOfScript sc = some n ∧ mapScript start fin lang sc = some (n, t, nm)) := by
  unfold mapScript
  rcases hr : sc.row with _ | rv
  · left; simp only [hr]
  · rcases hri : rowInt rv with _ | n
    · left; simp only [hr, hri]
    · simp only [hr, hri]
      split
      · left; rfl
      · split
        · left; rfl
        · split
          · split
            · left; rfl
            · right
              refine ⟨n, _, _, ?_, rfl⟩
              simp [rowOfScript, hr, hri]
          · split
            · left; rfl
            · right
              refine ⟨n, _, _, ?_, rfl⟩
              simp [rowOfScript, hr, hri]

theorem mapScript_row {start : Int} {fin : Finish} {lang : Lang} {sc : Script}
    {e : Int × Str × Str} (h : mapScript start fin lang sc = some e) :
    rowOfScript sc = some e.1 := by
  rcases mapScript_shape start fin lang sc with h0 | ⟨n, t, nm, hrow, hs⟩
  · rw [h0] at h; exact Option.noConfusion h
  · rw [hs] at h
    cases h
    exact hrow

theorem entriesMono {doc : NodeList} {lang : Lang}
    (h : ∀ i e, extract_entry doc i lang = some e → numVal e.1 = i)
    (ids : List Nat) (hp : List.Pairwise (· < ·) ids) :
    List.Pairwise (fun a b : EntryH => numVal a.1 ≤ numVal b.1)
      (ids.filterMap (fun i => extract_entry doc i lang)) := by
  refine List.Pairwise.filterMap _ ?_ hp
  intro a a' hlt b hb b' hb'
  rw [Option.mem_def] at hb hb'
  have h1 := h a b hb
  have h2 := h a' b' hb'
  omega

/-! ## Equivalences between code-side and spec-side definitions -/

theorem find?_eq_head_filter {α : Type} (p : α → Bool) (l : List α) :
    l.find? p = (l.filter p).head? := by
  induction l with
  | nil => rfl
  | cons a cs ih =>
    cases h : p a
    · rw [List.find?_cons, List.filter_cons, h]
      simp only [Bool.false_eq_true, if_false]
      exact ih
    · rw [List.find?_cons, List.filter_cons, h]
      simp

theorem pyOr_pair (a b : Option Str) : pyOr a (pyOr b []) = specPick [a, b] := by
  rcases a with _ | s
  · rcases b with _ | t <;> simp [pyOr, specPick]
  · rcases b with _ | t <;> by_cases hs : s = [] <;> simp [pyOr, specPick, hs]

theorem pyOr_name (a : Option Str) :
    pyOr a unknownStr = (if specPick [a] = [] then unknownStr else specPick [a]) := by
  rcases a with _ | s
  · simp [pyOr, specPick]
  · by_cases hs : s = [] <;> simp [pyOr, specPick, hs]

theorem brReplace_guard (raw : Str) :
    (if raw = [] then raw else brReplace raw) = brReplace raw := by
  by_cases h : raw = []
  · rw [if_pos h, h]; rfl
  · rw [if_neg h]

theorem mapScript_eq_specApiMap (start : Int) (fin : Finish) (lang : Lang) (sc : Script) :
    mapScript start fin lang sc = specApiMap start fin lang sc := by
  unfold mapScript specApiMap
  rcases hr : sc.row with _ | rv
  · simp only [hr]
  · simp only [hr]
    rcases hri : rowInt rv with _ | n
    · simp only [hri]
    · simp only [hri]
      split
      · rfl
      · split
        · rfl
        · cases lang
          · simp only [pyOr_pair, pyOr_name, brReplace_guard, specApiText, specApiName]
          · simp only [pyOr_pair, pyOr_name, brReplace_guard, specApiText, specApiName]

theorem isPrefixOf_append_self (nm d : Str) : nm.isPrefixOf (nm ++ d) = true := by
  induction nm with
  | nil => simp [List.isPrefixOf]
  | cons c cs ih => simp [List.isPrefixOf, ih]

theorem extract_entry_nil (i : Nat) (lang : Lang) : extract_entry .nil i lang = none := rfl

/-! ## Claims -/

/-- Claim C1, counterexample: the result of a bounded scan is not in
general monotonically increasing in the `number` field.  On the HTML
path the number is read from the row's first cell and may disagree with
the visited id (here id "1" displays 50 and id "2" displays 3); on the
API path the records are processed in source order without sorting
(here rows 5 then 3). -/
theorem C1_counterexample :
    ¬ List.Pairwise (fun a b : EntryH => numVal a.1 ≤ numVal b.1)
        (scrape_bounded cdocNonMono 1 2 .en) ∧
    ¬ List.Pairwise (fun a b : Int × Str × Str => a.1 ≤ b.1)
        (fetch_entries_via_api scriptsNonMono 1 (.num 10) .en) := by decide

/-- Claim C1 (amended): scan results are produced in ascending visited-id
order (HTML) or in source order (API); therefore they are monotonically
increasing in `number` whenever each successful extraction's displayed
number equals the visited id (HTML paths, bounded and open-ended), and
whenever the source records are listed in ascending row order (API
path). -/
theorem C1_amended_monotonicity :
    (∀ (doc : NodeList) (lang : Lang) (s f : Nat),
      (∀ i e, extract_entry doc i lang = some e → numVal e.1 = i) →
      List.Pairwise (fun a b : EntryH => numVal a.1 ≤ numVal b.1)
        (scrape_bounded doc s f lang)) ∧
    (∀ (fuel : Nat) (doc : NodeList) (lang : Lang) (st m : Nat),
      (∀ i e, extract_entry doc i lang = some e → numVal e.1 = i) →
      List.Pairwise (fun a b : EntryH => numVal a.1 ≤ numVal b.1)
        (scrapeOpenFuel fuel doc lang st m).1) ∧
    (∀ (scripts : List Script) (s : Int) (fin : Finish) (lang : Lang),
      List.Pairwise (fun a b => rowsLEb a b = true) scripts →
      List.Pairwise (fun a b : Int × Str × Str => a.1 ≤ b.1)
        (fetch_entries_via_api scripts s fin lang)) := by
  refine ⟨?_, ?_, ?_⟩
  · intro doc lang s f h
    unfold scrape_bounded
    exact entriesMono h _ (List.pairwise_lt_range' _ _)
  · intro fuel doc lang st m h
    obtain ⟨k, hk⟩ := scrapeOpen_entries_range fuel doc lang st m
    rw [hk]
    exact entriesMono h _ (List.pairwise_lt_range' _ _)
  · intro scripts s fin lang h
    unfold fetch_entries_via_api
    refine List.Pairwise.filterMap _ ?_ h
    intro a a' hle b hb b' hb'
    rw [Option.mem_def] at hb hb'
    have h1 := mapScript_row hb
    have h2 := mapScript_row hb'
    unfold rowsLEb at hle
    rw [h1, h2] at hle
    simpa using hle

/-- Witness for the amended C1 theorem at concrete inputs. -/
theorem C1_amended_monotonicity_witness :
    List.Pairwise (fun a b : EntryH => numVal a.1 ≤ numVal b.1)
      (scrape_bounded .nil 1 3 .en) ∧
    List.Pairwise (fun a b : EntryH => numVal a.1 ≤ numVal b.1)
      (scrapeOpenFuel 12 .nil .en 1 0).1 ∧
    List.Pairwise (fun a b : Int × Str × Str => a.1 ≤ b.1)
      (fetch_entries_via_api scriptsMono 1 (.num 10) .en) :=
  ⟨C1_amended_monotonicity.1 .nil .en 1 3
      (fun i e h => absurd h (by rw [extract_entry_nil]; exact Option.noConfusion)),
   C1_amended_monotonicity.2.1 12 .nil .en 1 0
      (fun i e h => absurd h (by rw [extract_entry_nil]; exact Option.noConfusion)),
   C1_amended_monotonicity.2.2 scriptsMono 1 (.num 10) .en (by decide)⟩

/-- Claim C2: on the synthetic document whose rows have ids 5..14 only,
the open-ended scan from 5 returns exactly the ten entries for ids 5..14
in ascending visited order, and it halts after visiting id 24 (the final
loop state is id counter 25, i.e. one past the last visited id 24, with
10 consecutive misses accumulated on ids 15..24); giving the loop any
extra fuel does not change the outcome. -/
theorem C2_open_scan_synthetic :
    scrapeOpenFuel 25 cdocOpen .en 5 0 = (openExpected, 25, 10) ∧
    (∀ g, scrapeOpenFuel (25 + g) cdocOpen .en 5 0 = (openExpected, 25, 10)) := by
  have h : scrapeOpenFuel 25 cdocOpen .en 5 0 = (openExpected, 25, 10) := by decide
  exact ⟨h, fun g => scrapeOpen_stab 25 cdocOpen .en 5 0 openExpected 25 h g⟩

/-- Claim C3, counterexample: `extract_entry` can return NotFound even
though none of the claim's five conditions holds.  In `cdocNameOnly` the
element is found, a tr ancestor exists, the row has 4 cells, the first
cell contains digits, and the text cell's content normalizes to "Bob"
(nonempty) - but the found character name "Bob" is stripped from the
front of the dialogue first, leaving the empty string, so the extraction
misses. -/
theorem C3_counterexample :
    extract_entry cdocNameOnly 7 .en = none ∧
    missSpecOrig cdocNameOnly 7 .en = false := by decide

/-- Claim C3 (amended): `extract_entry` returns NotFound exactly when the
element is absent, or it has no tr ancestor, or the row has fewer than 4
cells, or the first cell's text has no digit run, or the text-cell
content *after stripping a leading occurrence of the found character
name* normalizes to the empty string. -/
theorem C3_notfound_iff (doc : NodeList) (i : Nat) (lang : Lang) :
    extract_entry doc i lang = none ↔ missSpecAmended doc i lang = true := by
  unfold extract_entry missSpecAmended condNoElem condNoRowAnc condFewCells condNoDigits
    condEmptyTextAmended
  rcases h1 : locate doc i with _ | ⟨el, anc⟩
  · simp [h1]
  · rcases h2 : rowOf anc with _ | row
    · simp [h1, h2]
    · by_cases h3 : (tdCells row).length < 4
      · simp [h1, h2, h3]
      · rcases h4 : firstDigits (getTextStrip (cellAt (tdCells row) 0)) with _ | num
        · simp [h1, h2, h3, h4]
        · by_cases h5 : process_text
              (stripNameStep
                (charNameOf row (cellAt (tdCells row) 0) (textCellOf (tdCells row) lang))
                (getTextSep (textCellOf (tdCells row) lang))) = []
          · simp [h1, h2, h3, h4, h5]
          · simp [h1, h2, h3, h4, h5]

/-- Witness: the amended iff instantiated on a concrete document. -/
theorem C3_notfound_iff_witness :
    extract_entry cdocNameOnly 7 .en = none ↔ missSpecAmended cdocNameOnly 7 .en = true :=
  C3_notfound_iff cdocNameOnly 7 .en

/-- Claim C4, counterexample: the code's character-name computation
disagrees with the claimed four-step chain.  First input: an `a` element
classed "xchar" inside the text cell - the claimed heuristic (d) picks
its text "Zed", the code (which only scans div/span/p in step (d))
yields "Unknown".  Second input: cell 0 holds a span whose text is
literally "Unknown" - the claimed chain stops at (b) with "Unknown",
while the code re-checks and lets (d) produce "Kara". -/
theorem C4_counterexample :
    charNameOf rowAnchor cell0Plain tcellAnchor ≠
      claimNameChain rowAnchor cell0Plain tcellAnchor ∧
    charNameOf rowCharbox cell0Unknown tcellCharbox ≠
      claimNameChain rowCharbox cell0Unknown tcellCharbox := by decide

/-- Claim C4 (amended): the character name is computed by trying (a)
name/character-classed span/div/strong/b in the text cell, (b) first
span/div/strong/b in cell 0, (c) first strong/b in the row, and then a
step (d) that only examines div/span/p elements of the text cell with a
class containing "name" or "char", where (d) runs whenever the name
after (a)-(c) is literally "Unknown" (also when an earlier heuristic
returned that text); the sentinel "Unknown" results when everything
fails. -/
theorem C4_amended_name_chain (row cell0 tc : Node) :
    charNameOf row cell0 tc = amendedNameChain row cell0 tc := by
  have hfind : (descendOf tc).find? predNameClassTag
      = ((descendOf tc).filter predNameClassTag).head? := find?_eq_head_filter _ _
  unfold charNameOf amendedNameChain attemptA attemptB attemptC attemptD firstSome
  rcases hF : (descendOf tc).filter predNameClassTag with _ | ⟨eA, rest⟩ <;>
    rw [hF] at hfind
  · rcases hB : (descendOf cell0).find?
        (fun n => tagIn n [spanStr, divStr, strongStr, bStr]) with _ | eB
    · rcases hC : (descendOf row).find? (fun n => tagIn n [strongStr, bStr]) with _ | eC
      · rcases hD : (descendOf tc).find?
            (fun n => tagIn n [divStr, spanStr, pStr] && classNameChar (nodeClasses n))
            with _ | eD
        · simp [firstSome, hfind, hB, hC, hD]
        · simp [firstSome, hfind, hB, hC, hD]
      · by_cases hU : getTextStrip eC = unknownStr
        · rcases hD : (descendOf tc).find?
              (fun n => tagIn n [divStr, spanStr, pStr] && classNameChar (nodeClasses n))
              with _ | eD
          · simp [firstSome, hfind, hB, hC, hD, hU]
          · simp [firstSome, hfind, hB, hC, hD, hU]
        · simp [firstSome, hfind, hB, hC, hU]
    · by_cases hU : getTextStrip eB = unknownStr
      · rcases hD : (descendOf tc).find?
            (fun n => tagIn n [divStr, spanStr, pStr] && classNameChar (nodeClasses n))
            with _ | eD
        · simp [firstSome, hfind, hB, hD, hU]
        · simp [firstSome, hfind, hB, hD, hU]
      · simp [firstSome, hfind, hB, hU]
  · by_cases hU : getTextStrip eA = unknownStr
    · rcases hD : (descendOf tc).find?
          (fun n => tagIn n [divStr, spanStr, pStr] && classNameChar (nodeClasses n))
          with _ | eD
      · simp [firstSome, hfind, hD, hU]
      · simp [firstSome, hfind, hD, hU]
    · simp [firstSome, hfind, hU]

/-- Claim C5: for every input, `process_text` output contains no newline
and no carriage return, has no two adjacent spaces, and is trimmed
(stripping it again changes nothing); the empty (falsy) input maps to
the empty string, and the spec's example evaluates as stated. -/
theorem C5_normalizer_properties :
    (∀ s : Str, '\n' ∉ process_text s ∧ '\r' ∉ process_text s ∧
      List.Chain' (fun a b => ¬(a = ' ' ∧ b = ' ')) (process_text s) ∧
      pstrip (process_text s) = process_text s) ∧
    process_text [] = [] ∧
    process_text ("  a\n\nb  ".toList) = "a b".toList := by
  refine ⟨fun s => ⟨process_text_no_lf s, process_text_no_cr s, ?_,
    process_text_trimmed s⟩, rfl, by decide⟩
  refine List.Chain'.imp ?_ (process_text_chain s)
  intro a b hR hab
  exact hR ⟨by rw [hab.1]; decide, by rw [hab.2]; decide⟩

/-- Witness for C5 at a concrete input. -/
theorem C5_normalizer_properties_witness :
    '\n' ∉ process_text ("x \n y".toList) ∧ '\r' ∉ process_text ("x \n y".toList) ∧
    List.Chain' (fun a b => ¬(a = ' ' ∧ b = ' ')) (process_text ("x \n y".toList)) ∧
    pstrip (process_text ("x \n y".toList)) = process_text ("x \n y".toList) :=
  C5_normalizer_properties.1 ("x \n y".toList)

/-- Claim C6: the API mapper sends the claim's record to the entry
(3, "Hi there", "Kara") under language EN, and, in general, the whole
record loop coincides with the spec's mapper: prefer the Html text
field, fall back to the Search text field, else empty; take the ChrName
field defaulting to "Unknown"; replace case-insensitive br markup
(optional whitespace, optional self-closing slash) by one space; then
normalize, skipping entries that end up empty. -/
theorem C6_api_mapper :
    fetch_entries_via_api [scriptC6] 1 (.num 5) .en
      = [(3, "Hi there".toList, "Kara".toList)] ∧
    (∀ (scripts : List Script) (start : Int) (fin : Finish) (lang : Lang),
      fetch_entries_via_api scripts start fin lang
        = scripts.filterMap (specApiMap start fin lang)) := by
  refine ⟨by decide, ?_⟩
  intro scripts start fin lang
  unfold fetch_entries_via_api
  exact List.filterMap_congr (fun sc _ => mapScript_eq_specApiMap start fin lang sc)

/-- Witness for C6's refinement equation at concrete inputs. -/
theorem C6_api_mapper_witness :
    fetch_entries_via_api [scriptC6] 1 (.num 5) .jp
      = [scriptC6].filterMap (specApiMap 1 (.num 5) .jp) :=
  C6_api_mapper.2 [scriptC6] 1 (.num 5) .jp

/-- Claim C7: whenever extraction fails for every id at or above a bound
N (as holds for any finite document), the open-ended scan has
stabilized by fuel N + 10 - more fuel does not change the result, i.e.
the Python loop terminates - and reaching the miss threshold 10 halts
the loop immediately. -/
theorem C7_open_scan_terminates (doc : NodeList) (lang : Lang) (start N g : Nat)
    (h : ∀ i, N ≤ i → extract_entry doc i lang = none) :
    scrapeOpenFuel (N + 10 + g) doc lang start 0 = scrapeOpenFuel (N + 10) doc lang start 0 ∧
    (∀ f i, scrapeOpenFuel f doc lang i 10 = ([], i, 10)) := by
  constructor
  · refine scrapeOpen_mu h (N + 10) start 0 ?_ g
    unfold muOpen
    split <;> omega
  · intro f i
    cases f with
    | zero => rfl
    | succ f' => simp [scrapeOpenFuel]

/-- Witness for C7 on the empty document (N = 0: every id misses). -/
theorem C7_open_scan_terminates_witness :
    scrapeOpenFuel (0 + 10 + 7) .nil .en 1 0 = scrapeOpenFuel (0 + 10) .nil .en 1 0 ∧
    (∀ f i, scrapeOpenFuel f .nil .en i 10 = ([], i, 10)) :=
  C7_open_scan_terminates .nil .en 1 0 7 (fun i _ => extract_entry_nil i .en)

/-- Claim C8: when a character name was found and the raw text begins
with it, exactly one leading occurrence is removed (the remainder is
then whitespace-stripped); in particular the extraction of the "Bob
says hi" document yields text "says hi" with name "Bob". -/
theorem C8_name_stripping :
    (∀ nm d : Str, nm ≠ unknownStr → stripNameStep nm (nm ++ d) = pstrip d) ∧
    extract_entry cdocBob 1 .en
      = some ("1".toList, "says hi".toList, "Bob".toList) := by
  refine ⟨?_, by decide⟩
  intro nm d hne
  unfold stripNameStep
  rw [if_pos ⟨hne, isPrefixOf_append_self nm d⟩, List.drop_left]

/-- Witness for C8's stripping equation at "Bob". -/
theorem C8_name_stripping_witness :
    stripNameStep ("Bob".toList) ("Bob".toList ++ " says hi".toList)
      = pstrip (" says hi".toList) :=
  C8_name_stripping.1 ("Bob".toList) (" says hi".toList) (by decide)

/-- Claim C9: the text normalizer is idempotent. -/
theorem C9_normalizer_idempotent (s : Str) :
    process_text (process_text s) = process_text s :=
  process_text_idem s

/-- Witness for C9 at a concrete input. -/
theorem C9_normalizer_idempotent_witness :
    process_text (process_text ("  a\n\nb  ".toList)) = process_text ("  a\n\nb  ".toList) :=
  C9_normalizer_idempotent ("  a\n\nb  ".toList)

/-- Claim C10: a document on which `extract_entry` returns an entry with
the empty string as character name: fallback (b) finds an empty span in
cell 0, the later class-substring step is skipped (the name is no longer
the literal "Unknown", so the p-element "Kara" is not consulted), and
the stripping step fires vacuously (stripping the empty name is just a
whitespace strip, as every string starts with the empty string). -/
theorem C10_empty_character_name :
    extract_entry cdocEmptyName 1 .en = some ("1".toList, "Kara hi".toList, []) ∧
    (∀ d : Str, stripNameStep [] d = pstrip d) := by
  refine ⟨by decide, ?_⟩
  intro d
  unfold stripNameStep
  rw [if_pos ⟨by decide, by simp [List.isPrefixOf]⟩]
  rw [List.length_nil, List.drop_zero]

/-- Witness for C10's vacuous stripping at a concrete input. -/
theorem C10_empty_character_name_witness :
    stripNameStep [] ("  hey".toList) = pstrip ("  hey".toList) :=
  C10_empty_character_name.2 ("  hey".toList)
